import Mathlib

/-
Verification of the multi-modal classifier core (framework_model.py and
model_03/model.py) against its natural-language specification.

Shallow embedding conventions:
- Tensors are modelled per axis: the batch and document axes as lists, fixed
  feature axes as functions out of Fin n, machine floats as exact reals.
- Failing tensor operations (shape mismatches, calls on absent values)
  are modelled in the Except String monad.
- Dropout layers are the identity (evaluation mode), as the specified
  properties concern the deterministic forward pass.
-/

namespace NlpModel

/-- Batched application of a fallible per-sample operation along the batch
axis: one failing sample fails the whole batched tensor operation. -/
def mapE {α β : Type} (xs : List α) (f : α → Except String β) :
    Except String (List β) :=
  match xs with
  | [] => .ok []
  | a :: t => do
    let b ← f a
    let bs ← mapE t f
    .ok (b :: bs)

@[simp] theorem mapE_nil {α β : Type} (f : α → Except String β) :
    mapE [] f = .ok [] := rfl

@[simp] theorem mapE_cons {α β : Type} (f : α → Except String β) (a : α)
    (t : List α) :
    mapE (a :: t) f =
      (f a).bind fun b => (mapE t f).bind fun bs => .ok (b :: bs) := rfl

/-! ### model_03/model.py: AttentionWithContext

`AttentionWithContext` (context-attention pooling, Yang et al.): a learned
linear map `W` (with bias), tanh, a scoring map `u` (no bias), exp,
mask multiplication, epsilon-stabilized normalization, weighted sum.
One sample: `x : Fin N → Fin D → ℝ` is the (steps, features) input,
the optional mask is a boolean validity flag per step. -/

structure AttentionWithContext (D : ℕ) where
  W : Fin D → Fin D → ℝ
  Wb : Fin D → ℝ
  u : Fin D → ℝ

/-- uit = tanh(W x + b), per step and feature. -/
noncomputable def AttentionWithContext.uit {D N : ℕ}
    (m : AttentionWithContext D) (x : Fin N → Fin D → ℝ) :
    Fin N → Fin D → ℝ :=
  fun t j => Real.tanh ((∑ i, m.W j i * x t i) + m.Wb j)

/-- ait = u . uit, the scalar score per step (the Linear map to one output,
no bias). -/
noncomputable def AttentionWithContext.ait {D N : ℕ}
    (m : AttentionWithContext D) (x : Fin N → Fin D → ℝ) : Fin N → ℝ :=
  fun t => ∑ j, m.u j * m.uit x t j

/-- a = exp(ait), multiplied by the mask when one is given
(`a = a*mask.float()`). -/
noncomputable def AttentionWithContext.rawScores {D N : ℕ}
    (m : AttentionWithContext D) (x : Fin N → Fin D → ℝ)
    (mask : Option (Fin N → Bool)) : Fin N → ℝ :=
  fun t =>
    match mask with
    | none => Real.exp (m.ait x t)
    | some mskb => Real.exp (m.ait x t) * (if mskb t then 1 else 0)

/-- The stabilizing constant eps = 1e-9 added to the normalizing sum. -/
noncomputable def attnEps : ℝ := 1 / 1000000000

/-- a = a / (sum(a, axis=1) + eps): the normalized attention coefficients. -/
noncomputable def AttentionWithContext.coeffs {D N : ℕ}
    (m : AttentionWithContext D) (x : Fin N → Fin D → ℝ)
    (mask : Option (Fin N → Bool)) : Fin N → ℝ :=
  fun t => m.rawScores x mask t / ((∑ s, m.rawScores x mask s) + attnEps)

/-- weighted_input = sum(a * x, axis=1): the pooled output vector. -/
noncomputable def AttentionWithContext.forward {D N : ℕ}
    (m : AttentionWithContext D) (x : Fin N → Fin D → ℝ)
    (mask : Option (Fin N → Bool)) : Fin D → ℝ :=
  fun j => ∑ t, m.coeffs x mask t * x t j

theorem rawScores_nonneg {D N : ℕ} (m : AttentionWithContext D)
    (x : Fin N → Fin D → ℝ) (mask : Option (Fin N → Bool)) (t : Fin N) :
    0 ≤ m.rawScores x mask t := by
  cases mask with
  | none => exact (Real.exp_pos _).le
  | some mskb =>
    show 0 ≤ Real.exp (m.ait x t) * (if mskb t then 1 else 0)
    by_cases h : mskb t
    · simpa [h] using (Real.exp_pos (m.ait x t)).le
    · simp [h]

/-- C2: when every mask entry marks its step invalid, the attention pooling
call still produces a well-defined result: every coefficient is exactly 0
and the pooled output vector is exactly the zero vector (the epsilon in the
denominator turns 0/0 into 0/eps = 0, so no NaN or Inf can arise in the
real-number semantics and the output is the stabilized near-zero vector). -/
theorem awc_fully_masked_stable {D N : ℕ} (m : AttentionWithContext D)
    (x : Fin N → Fin D → ℝ) :
    (∀ t, m.coeffs x (some fun _ => false) t = 0) ∧
      (∀ j, m.forward x (some fun _ => false) j = 0) := by
  have hraw : ∀ t, m.rawScores x (some fun _ => false) t = 0 := by
    intro t
    simp [AttentionWithContext.rawScores]
  have hco : ∀ t, m.coeffs x (some fun _ => false) t = 0 := by
    intro t
    simp [AttentionWithContext.coeffs, hraw]
  refine ⟨hco, ?_⟩
  intro j
  simp [AttentionWithContext.forward, hco]

theorem tanh_one_ge : (7 : ℝ) / 10 ≤ Real.tanh 1 := by
  rw [Real.tanh_eq_sinh_div_cosh, Real.sinh_eq, Real.cosh_eq]
  have hE : (2.7182818283 : ℝ) < Real.exp 1 := Real.exp_one_gt_d9
  have hF : 0 < Real.exp (-1) := Real.exp_pos _
  have hEF : Real.exp 1 * Real.exp (-1) = 1 := by
    rw [← Real.exp_add]; norm_num
  have hden : 0 < (Real.exp 1 + Real.exp (-1)) / 2 := by positivity
  rw [div_le_div_iff (by norm_num : (0:ℝ) < 10) hden]
  nlinarith [hE, hF, hEF, mul_pos hF hF,
    mul_pos (lt_trans (by norm_num : (0:ℝ) < 2.7182818283) hE) hF]

/-- Concrete attention module for the normalization counterexample: a 1-d,
1-step instance with W = 0, bias 1 and u = -20000, so the single
exponentiated score exp(-20000 * tanh 1) is far below the 1e-9 epsilon
scale divided into the tolerance. -/
noncomputable def awcTiny : AttentionWithContext 1 :=
  ⟨fun _ _ => 0, fun _ => 1, fun _ => -20000⟩

/-- Concrete zero input of one step and one feature. -/
noncomputable def xZero : Fin 1 → Fin 1 → ℝ := fun _ _ => 0

/-- Concrete all-valid mask over one step. -/
def maskTrue : Fin 1 → Bool := fun _ => true

/-- C1 counterexample: a concrete input with a fully valid (all-true) mask on
which the attention coefficients sum to strictly less than 1 - 1e-6: the
epsilon in the denominator is not negligible when the exponentiated scores
are tiny, so the normalization-to-1 claim fails as stated. -/
theorem awc_sum_below_tolerance :
    (∑ t, awcTiny.coeffs xZero (some maskTrue) t) < 1 - 1 / 1000000 := by
  have htanh := tanh_one_ge
  have hexp : (14001 : ℝ) ≤ Real.exp (20000 * Real.tanh 1) := by
    have h1 : 20000 * Real.tanh 1 + 1 ≤ Real.exp (20000 * Real.tanh 1) :=
      Real.add_one_le_exp _
    nlinarith [htanh]
  have hEpos : 0 < Real.exp (-(20000 * Real.tanh 1)) := Real.exp_pos _
  have hEle : Real.exp (-(20000 * Real.tanh 1)) ≤ 1 / 14001 := by
    rw [Real.exp_neg, one_div]
    exact inv_le_inv_of_le (by norm_num) hexp
  have hred : (∑ t, awcTiny.coeffs xZero (some maskTrue) t) =
      Real.exp (-(20000 * Real.tanh 1)) /
        (Real.exp (-(20000 * Real.tanh 1)) + attnEps) := by
    simp [AttentionWithContext.coeffs, AttentionWithContext.rawScores,
      AttentionWithContext.ait, AttentionWithContext.uit, awcTiny,
      xZero, maskTrue, Fin.sum_univ_one]
  rw [hred]
  rw [div_lt_iff (by unfold attnEps; positivity)]
  unfold attnEps
  nlinarith [hEle, hEpos]

/-- C1 amended: with at least one valid mask step, the attention coefficients
are all non-negative and sum to at most 1; the sum is within 1e-6 of 1
provided the sum of the surviving exponentiated scores is at least 1e-3
(without that proviso the epsilon term can push the sum far below 1, see the
counterexample above). -/
theorem awc_coeffs_normalized {D N : ℕ} (m : AttentionWithContext D)
    (x : Fin N → Fin D → ℝ) (mask : Fin N → Bool)
    (hmask : ∃ t, mask t = true) :
    (∀ t, 0 ≤ m.coeffs x (some mask) t) ∧
      (∑ t, m.coeffs x (some mask) t) ≤ 1 ∧
      (1 / 1000 ≤ ∑ t, m.rawScores x (some mask) t →
        1 - 1 / 1000000 ≤ ∑ t, m.coeffs x (some mask) t) := by
  obtain ⟨t0, _⟩ := hmask
  have hS : 0 ≤ ∑ t, m.rawScores x (some mask) t :=
    Finset.sum_nonneg fun t _ => rawScores_nonneg m x (some mask) t
  have hden : 0 < (∑ t, m.rawScores x (some mask) t) + attnEps := by
    unfold attnEps; positivity
  have hsum : (∑ t, m.coeffs x (some mask) t) =
      (∑ t, m.rawScores x (some mask) t) /
        ((∑ t, m.rawScores x (some mask) t) + attnEps) := by
    unfold AttentionWithContext.coeffs
    rw [Finset.sum_div]
  refine ⟨?_, ?_, ?_⟩
  · intro t
    exact div_nonneg (rawScores_nonneg m x (some mask) t) hden.le
  · rw [hsum, div_le_one hden]
    unfold attnEps; linarith
  · intro hbig
    rw [hsum, le_div_iff hden]
    unfold attnEps at hden ⊢
    nlinarith [hbig]

/-- Concrete attention module with all weights zero: every score is
exp(0) = 1, so the masked score sum is 1 and well above the 1e-3 proviso. -/
noncomputable def awcUnit : AttentionWithContext 1 :=
  ⟨fun _ _ => 0, fun _ => 0, fun _ => 0⟩

theorem awc_coeffs_normalized_witness :
    (∃ t, maskTrue t = true) ∧
      ((∀ t, 0 ≤ awcUnit.coeffs xZero (some maskTrue) t) ∧
        (∑ t, awcUnit.coeffs xZero (some maskTrue) t) ≤ 1 ∧
        (1 / 1000 ≤ ∑ t, awcUnit.rawScores xZero (some maskTrue) t →
          1 - 1 / 1000000 ≤ ∑ t, awcUnit.coeffs xZero (some maskTrue) t)) :=
  ⟨⟨0, rfl⟩, awc_coeffs_normalized awcUnit xZero maskTrue ⟨0, rfl⟩⟩

/-! ### Generic lemmas about batched fallible operations (mapE) -/

theorem mapE_ok_length {α β : Type} (f : α → Except String β) :
    ∀ {xs : List α} {ys : List β}, mapE xs f = .ok ys →
      ys.length = xs.length := by
  intro xs
  induction xs with
  | nil => intro ys h; cases h; rfl
  | cons a t ih =>
    intro ys h
    rw [mapE_cons] at h
    cases hfa : f a with
    | error e => rw [hfa] at h; cases h
    | ok b =>
      rw [hfa] at h
      cases hmt : mapE t f with
      | error e => rw [hmt] at h; cases h
      | ok bs =>
        rw [hmt] at h
        cases h
        simp [ih hmt]

theorem mapE_ok_getD {α β : Type} (f : α → Except String β) (da : α) (db : β) :
    ∀ {xs : List α} {ys : List β}, mapE xs f = .ok ys →
      ∀ i, i < xs.length → f (xs.getD i da) = .ok (ys.getD i db) := by
  intro xs
  induction xs with
  | nil => intro ys _ i hi; simp at hi
  | cons a t ih =>
    intro ys h i hi
    rw [mapE_cons] at h
    cases hfa : f a with
    | error e => rw [hfa] at h; cases h
    | ok b =>
      rw [hfa] at h
      cases hmt : mapE t f with
      | error e => rw [hmt] at h; cases h
      | ok bs =>
        rw [hmt] at h
        cases h
        cases i with
        | zero => simpa using hfa
        | succ n =>
          have hn : n < t.length := by simpa using hi
          simpa using ih hmt n hn

theorem mapE_ok_mem {α β : Type} (f : α → Except String β) :
    ∀ {xs : List α} {ys : List β}, mapE xs f = .ok ys →
      ∀ y ∈ ys, ∃ a ∈ xs, f a = .ok y := by
  intro xs
  induction xs with
  | nil => intro ys h y hy; cases h; simp at hy
  | cons a t ih =>
    intro ys h y hy
    rw [mapE_cons] at h
    cases hfa : f a with
    | error e => rw [hfa] at h; cases h
    | ok b =>
      rw [hfa] at h
      cases hmt : mapE t f with
      | error e => rw [hmt] at h; cases h
      | ok bs =>
        rw [hmt] at h
        cases h
        rcases List.mem_cons.mp hy with hyb | hybs
        · exact ⟨a, List.mem_cons_self a t, hyb ▸ hfa⟩
        · obtain ⟨a', ha', hfa'⟩ := ih hmt y hybs
          exact ⟨a', List.mem_cons_of_mem a ha', hfa'⟩

theorem mapE_ok_of_forall {α β : Type} (f : α → Except String β) :
    ∀ {xs : List α}, (∀ a ∈ xs, ∃ b, f a = .ok b) →
      ∃ ys, mapE xs f = .ok ys := by
  intro xs
  induction xs with
  | nil => intro _; exact ⟨[], rfl⟩
  | cons a t ih =>
    intro h
    obtain ⟨b, hb⟩ := h a (List.mem_cons_self a t)
    obtain ⟨bs, hbs⟩ := ih fun a' ha' => h a' (List.mem_cons_of_mem a ha')
    refine ⟨b :: bs, ?_⟩
    rw [mapE_cons, hb, hbs]
    rfl

theorem mapE_eq_map {α β : Type} (f : α → Except String β) (g : α → β) :
    ∀ {xs : List α}, (∀ a ∈ xs, f a = .ok (g a)) →
      mapE xs f = .ok (xs.map g) := by
  intro xs
  induction xs with
  | nil => intro _; rfl
  | cons a t ih =>
    intro h
    rw [mapE_cons, h a (List.mem_cons_self a t),
      ih fun a' ha' => h a' (List.mem_cons_of_mem a ha')]
    rfl

/-! ### model_03/model.py: DocumentEncoder and CorpusEncoder

The pretrained DistilBERT text encoder is an external dependency (loaded
from a checkpoint, not part of this repository), so it is abstracted as the
function field bert, giving the last hidden state per step.
Tensors over the document axis are lists; token-id sequences and integer
attention masks are lists of integers. -/

structure DocumentEncoder where
  bert : List ℤ → List ℤ → ℕ → Fin 768 → ℝ

/-- DocumentEncoder.forward: run the text encoder on the token/mask pair,
keep the hidden state of step 0 (the CLS position); dropout is the identity
in evaluation mode. -/
def DocumentEncoder.forward (e : DocumentEncoder)
    (tokens attention_mask : List ℤ) : Fin 768 → ℝ :=
  e.bert tokens attention_mask 0

structure CorpusEncoder03 where
  doc_encoder : DocumentEncoder
  W : Fin 32 → Fin 768 → ℝ
  Wb : Fin 32 → ℝ

/-- The projection width declared by model_03, `self.corpus_emb_dim = 32`. -/
def CorpusEncoder03.corpus_emb_dim (_ : CorpusEncoder03) : ℕ := 32

/-- torch.max(x, dim=1)[0]: elementwise max over the document axis; torch
rejects reduction over an empty dimension. -/
def maxPoolDocs (l : List (Fin 768 → ℝ)) : Except String (Fin 768 → ℝ) :=
  match l with
  | [] => .error "max(): Expected reduction dim 1 to have non-zero size"
  | v :: t => .ok fun j => t.foldl (fun acc w => max acc (w j)) (v j)

/-- One sample of CorpusEncoder03.forward: encode each of the sample's
documents with the document encoder (the source flattens the document axis
into the batch axis, runs the encoder once, and reshapes back, which is the
same per-document computation), max-pool over documents, then apply the
final Linear(768, 32) with bias. -/
def CorpusEncoder03.encSample (e : CorpusEncoder03)
    (p : List (List ℤ) × List (List ℤ)) : Except String (List ℝ) :=
  (maxPoolDocs ((p.1.zip p.2).map fun d =>
      e.doc_encoder.forward d.1 d.2)).bind fun pooled =>
    .ok (List.ofFn fun o : Fin 32 => (∑ i, e.W o i * pooled i) + e.Wb o)

/-- CorpusEncoder03.forward over a batch: the attention mask is reshaped
unconditionally (`attention_mask.view(...)`), so a missing mask fails; the
shape guard models the requirement that x and the mask are tensors of the
same leading shape. -/
def CorpusEncoder03.forward (e : CorpusEncoder03)
    (x : List (List (List ℤ))) :
    Option (List (List (List ℤ))) → Except String (List (List ℝ))
  | none => .error "AttributeError: NoneType object has no attribute view"
  | some masks =>
    if x.length == masks.length &&
        (x.zip masks).all fun p => p.1.length == p.2.length then
      mapE (x.zip masks) e.encSample
    else .error "shape mismatch between x and attention_mask"

/-- C10: calling the model_03 corpus encoder without an attention mask
(the declared default None) fails for every input batch, because the mask
is reshaped unconditionally before it reaches the document encoder. -/
theorem enc03_requires_mask (e : CorpusEncoder03)
    (x : List (List (List ℤ))) :
    e.forward x none =
      .error "AttributeError: NoneType object has no attribute view" := rfl

theorem encSample_ok (e : CorpusEncoder03)
    (p : List (List ℤ) × List (List ℤ)) (h1 : p.1 ≠ []) (h2 : p.2 ≠ []) :
    ∃ r, e.encSample p = .ok r ∧ r.length = 32 := by
  unfold CorpusEncoder03.encSample
  have hzip : p.1.zip p.2 ≠ [] := by
    cases hp1 : p.1 with
    | nil => exact absurd hp1 h1
    | cons a t =>
      cases hp2 : p.2 with
      | nil => exact absurd hp2 h2
      | cons b u => simp [List.zip_cons_cons]
  cases hd : (p.1.zip p.2).map fun d => e.doc_encoder.forward d.1 d.2 with
  | nil =>
    exact absurd (List.map_eq_nil_iff.mp hd) hzip
  | cons v t =>
    exact ⟨_, rfl, List.length_ofFn _⟩

/-- C7: for every batch and every uniform document count M of at least 1,
the model_03 corpus encoder succeeds and returns one row per sample, each of
width corpus_emb_dim = 32, fixed at construction: the document axis is
reduced by the elementwise max before the final projection, so the output
width never depends on M. -/
theorem enc03_output_shape (e : CorpusEncoder03)
    (x masks : List (List (List ℤ))) (M : ℕ) (hM : 1 ≤ M)
    (hx : ∀ s ∈ x, s.length = M) (hm : ∀ s ∈ masks, s.length = M)
    (hlen : masks.length = x.length) :
    ∃ out, e.forward x (some masks) = .ok out ∧ out.length = x.length ∧
      ∀ r ∈ out, r.length = e.corpus_emb_dim := by
  have hguard : (x.length == masks.length &&
      (x.zip masks).all fun p => p.1.length == p.2.length) = true := by
    rw [Bool.and_eq_true]
    constructor
    · exact Nat.beq_eq_true_eq _ _ |>.mpr hlen.symm
    · rw [List.all_eq_true]
      intro p hp
      obtain ⟨hp1, hp2⟩ := List.of_mem_zip hp
      exact Nat.beq_eq_true_eq _ _ |>.mpr ((hx _ hp1).trans (hm _ hp2).symm)
  have hforall : ∀ p ∈ x.zip masks, ∃ b, e.encSample p = .ok b := by
    intro p hp
    obtain ⟨hp1, hp2⟩ := List.of_mem_zip hp
    have h1 : p.1 ≠ [] := by
      intro hnil
      have := hx _ hp1
      rw [hnil] at this
      simp at this
      omega
    have h2 : p.2 ≠ [] := by
      intro hnil
      have := hm _ hp2
      rw [hnil] at this
      simp at this
      omega
    obtain ⟨r, hr, _⟩ := encSample_ok e p h1 h2
    exact ⟨r, hr⟩
  obtain ⟨out, hout⟩ := mapE_ok_of_forall _ hforall
  refine ⟨out, ?_, ?_, ?_⟩
  · simp only [CorpusEncoder03.forward]
    rw [hguard]
    simpa using hout
  · rw [mapE_ok_length _ hout]
    rw [List.length_zip, hlen, Nat.min_self]
  · intro r hr
    obtain ⟨p, hp, hfp⟩ := mapE_ok_mem _ hout r hr
    obtain ⟨hp1, hp2⟩ := List.of_mem_zip hp
    have h1 : p.1 ≠ [] := by
      intro hnil
      have := hx _ hp1
      rw [hnil] at this
      simp at this
      omega
    have h2 : p.2 ≠ [] := by
      intro hnil
      have := hm _ hp2
      rw [hnil] at this
      simp at this
      omega
    obtain ⟨r', hr', hlen'⟩ := encSample_ok e p h1 h2
    rw [hfp] at hr'
    cases hr'
    exact hlen'

/-- Concrete corpus encoder with constant-zero text encoder and projection. -/
noncomputable def enc03Triv : CorpusEncoder03 :=
  ⟨⟨fun _ _ _ _ => 0⟩, fun _ _ => 0, fun _ => 0⟩

theorem enc03_output_shape_witness :
    ((1 : ℕ) ≤ 1) ∧ (∀ s ∈ ([[[0]]] : List (List (List ℤ))), s.length = 1) ∧
      (∀ s ∈ ([[[1]]] : List (List (List ℤ))), s.length = 1) ∧
      ([[[1]]] : List (List (List ℤ))).length =
        ([[[0]]] : List (List (List ℤ))).length ∧
      (∃ out, enc03Triv.forward [[[0]]] (some [[[1]]]) = .ok out ∧
        out.length = ([[[0]]] : List (List (List ℤ))).length ∧
        ∀ r ∈ out, r.length = enc03Triv.corpus_emb_dim) :=
  ⟨le_refl 1, by simp, by simp, rfl,
    enc03_output_shape enc03Triv [[[0]]] [[[1]]] 1 (le_refl 1)
      (by simp) (by simp) rfl⟩

/-! ### framework_model.py: NontextualNetwork

The CNN1D building block is imported from vector_attention.py, which is not
part of the provided source; it is abstracted as the function field cnn. -/

structure NontextualNetwork where
  input_dim : ℕ
  input_channels : ℕ
  output_dim : ℕ
  /-- nn.Linear(9, input_channels-1, bias=True): the category embedding. -/
  catW : Fin (input_channels - 1) → Fin 9 → ℝ
  catB : Fin (input_channels - 1) → ℝ
  /-- Modelled from the spec: CNN1D (from vector_attention.py, missing from
  the provided source) is a multi-layer 1-D convolutional feature extractor
  consuming input_channels channels over 10 positions and producing a
  per-step embedding sequence of width output_dim. -/
  cnn : (Fin input_channels → Fin 10 → ℝ) → Fin 10 → Fin output_dim → ℝ

/-- NontextualNetwork.forward: split off the first 10 entries as the numeric
series, embed the remainder through Linear(9, input_channels-1) (which
requires exactly 9 remaining entries, else the matrix product fails),
repeat the embedded category vector across the 10 steps, stack it as the
leading channels with the numeric series as the last channel
(torch.cat([cat_feat, x_.unsqueeze(1)], dim=1)), and run the convolutional
extractor. -/
def NontextualNetwork.forward (nt : NontextualNetwork) (x : List ℝ) :
    Except String (List (List ℝ)) :=
  let x_ := x.take 10
  let category := x.drop 10
  if category.length == 9 then
    let catv : Fin 9 → ℝ := fun i => category.getD i 0
    let cat_feat : Fin (nt.input_channels - 1) → ℝ := fun j =>
      (∑ i, nt.catW j i * catv i) + nt.catB j
    let stacked : Fin nt.input_channels → Fin 10 → ℝ := fun c t =>
      if hc : (c : ℕ) < nt.input_channels - 1 then cat_feat ⟨c, hc⟩
      else x_.getD t 0
    .ok (List.ofFn fun t : Fin 10 =>
      List.ofFn fun j : Fin nt.output_dim => nt.cnn stacked t j)
  else .error "mat1 and mat2 shapes cannot be multiplied"

/-- Concrete nontextual network with zero weights and a zero extractor. -/
noncomputable def ntTriv : NontextualNetwork :=
  ⟨19, 2, 19, fun _ _ => 0, fun _ => 0, fun _ _ _ => 0⟩

/-- C8 counterexample: a flat input vector of length 20 (which satisfies
length at least 19) makes the forward call fail, because the category block
then has 10 entries while the category embedding is Linear(9, -), so the
remaining entries are not embedded as claimed. -/
theorem nontext_len20_fails :
    ntTriv.forward (List.replicate 20 0) =
      .error "mat1 and mat2 shapes cannot be multiplied" := by
  unfold NontextualNetwork.forward
  norm_num

/-- The stacked multichannel input as worded by the spec: the first 10
entries are the time series, the remaining entries are linearly embedded to
input_channels - 1 dimensions, that embedded category vector is repeated
across all 10 time steps, and the numeric series is stacked as the final
channel. -/
noncomputable def specStack (nt : NontextualNetwork) (x : List ℝ) :
    Fin nt.input_channels → Fin 10 → ℝ :=
  fun c t =>
    if hc : (c : ℕ) < nt.input_channels - 1 then
      (∑ i, nt.catW ⟨c, hc⟩ i * (x.drop 10).getD i 0) + nt.catB ⟨c, hc⟩
    else (x.take 10).getD t 0

/-- C8 amended: for every flat numeric input of length exactly 19 (10 lag
values plus the 9 category indicators the Linear(9, -) embedding expects),
the nontextual network returns the ordered sequence of 10 steps of width
output_dim obtained by applying the convolutional extractor to the stack of
the repeated embedded category vector and the numeric series; for lengths
above 19 the call fails (see the counterexample). -/
theorem nontext_forward_19 (nt : NontextualNetwork) (x : List ℝ)
    (hlen : x.length = 19) :
    nt.forward x = .ok (List.ofFn fun t : Fin 10 =>
      List.ofFn fun j : Fin nt.output_dim => nt.cnn (specStack nt x) t j) := by
  have h9 : ((x.drop 10).length == 9) = true := by
    rw [List.length_drop, hlen]
    decide
  simp only [NontextualNetwork.forward, h9, if_true]
  delta specStack
  rfl

theorem nontext_forward_19_witness :
    (List.replicate 19 (0:ℝ)).length = 19 ∧
      ntTriv.forward (List.replicate 19 0) =
        .ok (List.ofFn fun t : Fin 10 =>
          List.ofFn fun j : Fin ntTriv.output_dim =>
            ntTriv.cnn (specStack ntTriv (List.replicate 19 0)) t j) :=
  ⟨by simp, nontext_forward_19 ntTriv (List.replicate 19 0) (by simp)⟩

/-! ### framework_model.py: ClassificationHead

The MLP building blocks (SimpleMLP, CompactMLP from mlp.py) and
VectorAttention (vector_attention.py) are imported from files missing from
the provided source; they are abstracted as function fields with the
contract the spec gives them. -/

structure ClassificationHead where
  corpus_emb_dim : ℕ
  nontext_dim : ℕ
  /-- Modelled from the spec: the MLP (SimpleMLP or CompactMLP from mlp.py,
  missing from the provided source) maps a vector of width nontext_dim to
  one scalar logit; both variants expose the same contract. -/
  mlp : List ℝ → ℝ
  /-- Modelled from the spec: VectorAttention (vector_attention.py, missing
  from the provided source) attends over the nontextual sequence with a
  query vector and combines the sequence into one fused vector of the same
  width nontext_dim. -/
  va : List (List ℝ) → List ℝ → List ℝ
  va_width : ∀ s q, (va s q).length = nontext_dim
  /-- nn.Linear(corpus_emb_dim, nontext_dim, bias=False): the projection of
  the corpus embedding into the nontextual feature space, with no bias. -/
  projW : Fin nontext_dim → Fin corpus_emb_dim → ℝ

/-- Application of the MLP to one vector along the feature axis; the first
linear layer has in_features = nontext_dim, so any other width is a shape
error. -/
def ClassificationHead.mlpVec (h : ClassificationHead) (v : List ℝ) :
    Except String ℝ :=
  if v.length == h.nontext_dim then .ok (h.mlp v)
  else .error "mat1 and mat2 shapes cannot be multiplied"

/-- self.proj applied to one corpus embedding: a learned linear map with no
bias term. -/
def ClassificationHead.projVec (h : ClassificationHead) (v : List ℝ) :
    Except String (List ℝ) :=
  if v.length == h.corpus_emb_dim then
    .ok (List.ofFn fun j : Fin h.nontext_dim => ∑ i, h.projW j i * v.getD i 0)
  else .error "mat1 and mat2 shapes cannot be multiplied"

/-- ClassificationHead.forward before the final out.view(-1): the list of
per-sample output blocks. Branching follows the source: both entries
absent (None or declared width 0) raise; with only the nontextual input the
3-D tensor goes through the MLP unchanged (one scalar per step per sample);
with only the corpus input the 2-D tensor goes through the MLP unchanged;
with both, the corpus embedding is projected and used as the query of
VectorAttention over the nontextual sequence, then the fused vector goes
through the MLP. -/
def ClassificationHead.forwardParts (h : ClassificationHead)
    (x_corpus : Option (List (List ℝ)))
    (x_nontext : Option (List (List (List ℝ)))) :
    Except String (List (List ℝ)) :=
  if (x_corpus.isNone || h.corpus_emb_dim == 0) &&
      (x_nontext.isNone || h.nontext_dim == 0) then
    .error "Both entries are None."
  else if x_corpus.isNone || h.corpus_emb_dim == 0 then
    match x_nontext with
    | some seqs => mapE seqs fun s => mapE s h.mlpVec
    | none => .error "TypeError: mlp applied to None"
  else if x_nontext.isNone || h.nontext_dim == 0 then
    match x_corpus with
    | some vs => mapE vs fun v => (h.mlpVec v).map fun r => [r]
    | none => .error "TypeError: mlp applied to None"
  else
    match x_corpus, x_nontext with
    | some vs, some seqs =>
      if vs.length == seqs.length then
        mapE (vs.zip seqs) fun p =>
          (h.projVec p.1).bind fun q =>
            (h.mlpVec (h.va p.2 q)).map fun r => [r]
      else .error "batch size mismatch"
    | _, _ => .error "TypeError"

/-- out.view(-1): flatten the per-sample blocks into one flat output. -/
def ClassificationHead.forward (h : ClassificationHead)
    (x_corpus : Option (List (List ℝ)))
    (x_nontext : Option (List (List (List ℝ)))) :
    Except String (List ℝ) :=
  (h.forwardParts x_corpus x_nontext).map List.flatten

/-- C4: when both modalities are absent (each input None or its declared
width 0), the classification head raises at forward time instead of
returning a value. -/
theorem head_both_absent (h : ClassificationHead)
    (xc : Option (List (List ℝ))) (xn : Option (List (List (List ℝ))))
    (hc : xc = none ∨ h.corpus_emb_dim = 0)
    (hn : xn = none ∨ h.nontext_dim = 0) :
    h.forward xc xn = .error "Both entries are None." := by
  have hb : ((xc.isNone || h.corpus_emb_dim == 0) &&
      (xn.isNone || h.nontext_dim == 0)) = true := by
    rcases hc with hc | hc <;> rcases hn with hn | hn <;> simp [hc, hn]
  unfold ClassificationHead.forward ClassificationHead.forwardParts
  rw [hb]
  rfl

/-- Concrete head with both declared widths 0. -/
noncomputable def headZero : ClassificationHead :=
  ⟨0, 0, fun _ => 0, fun _ _ => [], fun _ _ => rfl, fun _ _ => 0⟩

theorem head_both_absent_witness :
    ((none : Option (List (List ℝ))) = none ∨ headZero.corpus_emb_dim = 0) ∧
      ((none : Option (List (List (List ℝ)))) = none ∨
        headZero.nontext_dim = 0) ∧
      headZero.forward none none = .error "Both entries are None." :=
  ⟨Or.inl rfl, Or.inl rfl,
    head_both_absent headZero none none (Or.inl rfl) (Or.inl rfl)⟩

@[simp] theorem exceptMap_ok {α β : Type} (f : α → β) (a : α) :
    Except.map f (.ok a : Except String α) = .ok (f a) := rfl

@[simp] theorem exceptMap_error {α β : Type} (f : α → β) (e : String) :
    Except.map f (.error e : Except String α) = .error e := rfl

@[simp] theorem exceptBind_ok {α β : Type} (f : α → Except String β) (a : α) :
    (Except.ok a).bind f = f a := rfl

@[simp] theorem exceptBind_error {α β : Type} (f : α → Except String β)
    (e : String) :
    (Except.error e : Except String α).bind f = .error e := rfl

theorem flatten_singletons {α β : Type} (g : α → β) (l : List α) :
    (l.map fun a => [g a]).flatten = l.map g := by
  induction l with
  | nil => rfl
  | cons a t ih => simp [ih]

/-- Concrete head with corpus_emb_dim = 1 and nontext_dim = 2, so the
corpus embedding width does not match the MLP input width. -/
noncomputable def headMis : ClassificationHead :=
  ⟨1, 2, fun _ => 0, fun _ _ => [0, 0], fun _ _ => rfl, fun _ _ => 0⟩

/-- C5 counterexample: with the nontextual modality absent and the corpus
modality present, the head passes the corpus tensor unchanged into the MLP,
whose first layer expects width nontext_dim = 2; the width-1 corpus row
makes the forward call fail instead of succeeding as claimed. -/
theorem head_pass_through_fails :
    headMis.forward (some [[1]]) none =
      .error "mat1 and mat2 shapes cannot be multiplied" := by
  unfold ClassificationHead.forward ClassificationHead.forwardParts
    ClassificationHead.mlpVec
  simp [headMis]

/-- C5 amended: when exactly one modality is absent (None input or declared
width 0), the present tensor is passed unchanged into the MLP, with no
projection and no attention; the call succeeds provided each vector fed to
the MLP has width nontext_dim, the declared MLP input width (otherwise the
MLP matrix product fails, as in the counterexample where
corpus_emb_dim differs from nontext_dim). -/
theorem head_single_modality (h : ClassificationHead) :
    (∀ (xc : Option (List (List ℝ))) (seqs : List (List (List ℝ))),
        (xc = none ∨ h.corpus_emb_dim = 0) → h.nontext_dim ≠ 0 →
        (∀ s ∈ seqs, ∀ v ∈ s, v.length = h.nontext_dim) →
        h.forward xc (some seqs) =
          .ok (seqs.map fun s => s.map h.mlp).flatten) ∧
      (∀ (vs : List (List ℝ)) (xn : Option (List (List (List ℝ)))),
        (xn = none ∨ h.nontext_dim = 0) → h.corpus_emb_dim ≠ 0 →
        (∀ v ∈ vs, v.length = h.nontext_dim) →
        h.forward (some vs) xn = .ok (vs.map h.mlp)) := by
  constructor
  · intro xc seqs hc hnd hw
    have hc1 : (xc.isNone || h.corpus_emb_dim == 0) = true := by
      rcases hc with hc | hc <;> simp [hc]
    have hc2 : ((some seqs : Option (List (List (List ℝ)))).isNone ||
        h.nontext_dim == 0) = false := by
      simp [Nat.beq_eq_true_eq, hnd]
    have hparts : h.forwardParts xc (some seqs) =
        .ok (seqs.map fun s => s.map h.mlp) := by
      unfold ClassificationHead.forwardParts
      rw [hc1, hc2]
      simp only [Bool.and_false, Bool.false_eq_true, if_false, if_true]
      exact mapE_eq_map _ _ fun s hs =>
        mapE_eq_map _ _ fun v hv => by
          unfold ClassificationHead.mlpVec
          rw [if_pos (Nat.beq_eq_true_eq _ _ |>.mpr (hw s hs v hv))]
    unfold ClassificationHead.forward
    rw [hparts]
    rfl
  · intro vs xn hn hce hw
    have hc1 : ((some vs : Option (List (List ℝ))).isNone ||
        h.corpus_emb_dim == 0) = false := by
      simp [Nat.beq_eq_true_eq, hce]
    have hc3 : (xn.isNone || h.nontext_dim == 0) = true := by
      rcases hn with hn | hn <;> simp [hn]
    have hparts : h.forwardParts (some vs) xn =
        .ok (vs.map fun v => [h.mlp v]) := by
      unfold ClassificationHead.forwardParts
      rw [hc1, hc3]
      simp only [Bool.false_and, Bool.false_eq_true, if_false, if_true]
      exact mapE_eq_map _ _ fun v hv => by
        unfold ClassificationHead.mlpVec
        rw [if_pos (Nat.beq_eq_true_eq _ _ |>.mpr (hw v hv))]
        rfl
    unfold ClassificationHead.forward
    rw [hparts, exceptMap_ok, flatten_singletons]

/-- Concrete head with corpus_emb_dim = nontext_dim = 1 and zero weights. -/
noncomputable def headDiag : ClassificationHead :=
  ⟨1, 1, fun _ => 0, fun _ _ => [0], fun _ _ => rfl, fun _ _ => 0⟩

theorem head_single_modality_witness :
    (((none : Option (List (List ℝ))) = none ∨ headDiag.corpus_emb_dim = 0) ∧
      headDiag.nontext_dim ≠ 0 ∧
      (∀ s ∈ [[[(0:ℝ)]]], ∀ v ∈ s, v.length = headDiag.nontext_dim) ∧
      headDiag.forward none (some [[[0]]]) =
        .ok (([[[(0:ℝ)]]].map fun s => s.map headDiag.mlp)).flatten) ∧
      (((none : Option (List (List (List ℝ)))) = none ∨
          headDiag.nontext_dim = 0) ∧
        headDiag.corpus_emb_dim ≠ 0 ∧
        (∀ v ∈ [[(0:ℝ)]], v.length = headDiag.nontext_dim) ∧
        headDiag.forward (some [[0]]) none =
          .ok ([[(0:ℝ)]].map headDiag.mlp)) :=
  ⟨⟨Or.inl rfl, by decide, by simp [headDiag],
      (head_single_modality headDiag).1 none [[[0]]] (Or.inl rfl)
        (by decide) (by simp [headDiag])⟩,
    ⟨Or.inl rfl, by decide, by simp [headDiag],
      (head_single_modality headDiag).2 [[0]] none (Or.inl rfl)
        (by decide) (by simp [headDiag])⟩⟩

/-- C9: with both modalities present, the head projects each corpus
embedding through the bias-free linear map into the nontextual feature
space, uses it as the query vector of VectorAttention over the nontextual
sequence, feeds the fused vector to the MLP, and returns exactly one scalar
per sample: the output length equals the batch size. -/
theorem head_both_present (h : ClassificationHead) (vs : List (List ℝ))
    (seqs : List (List (List ℝ)))
    (hce : h.corpus_emb_dim ≠ 0) (hnd : h.nontext_dim ≠ 0)
    (hlen : vs.length = seqs.length)
    (hw : ∀ v ∈ vs, v.length = h.corpus_emb_dim) :
    ∃ out, h.forward (some vs) (some seqs) = .ok out ∧
      out.length = vs.length ∧
      out = (vs.zip seqs).map fun p =>
        h.mlp (h.va p.2 (List.ofFn fun j : Fin h.nontext_dim =>
          ∑ i, h.projW j i * p.1.getD i 0)) := by
  have hc1 : ((some vs : Option (List (List ℝ))).isNone ||
      h.corpus_emb_dim == 0) = false := by
    simp [Nat.beq_eq_true_eq, hce]
  have hc2 : ((some seqs : Option (List (List (List ℝ)))).isNone ||
      h.nontext_dim == 0) = false := by
    simp [Nat.beq_eq_true_eq, hnd]
  have hblen : (vs.length == seqs.length) = true :=
    Nat.beq_eq_true_eq _ _ |>.mpr hlen
  have hparts : h.forwardParts (some vs) (some seqs) =
      .ok ((vs.zip seqs).map fun p =>
        [h.mlp (h.va p.2 (List.ofFn fun j : Fin h.nontext_dim =>
          ∑ i, h.projW j i * p.1.getD i 0))]) := by
    unfold ClassificationHead.forwardParts
    rw [hc1, hc2]
    dsimp only
    rw [hblen]
    simp only [if_true]
    exact mapE_eq_map _ _ fun p hp => by
      obtain ⟨hp1, _⟩ := List.of_mem_zip hp
      unfold ClassificationHead.projVec ClassificationHead.mlpVec
      rw [if_pos (Nat.beq_eq_true_eq _ _ |>.mpr (hw p.1 hp1))]
      rw [exceptBind_ok]
      rw [if_pos (Nat.beq_eq_true_eq _ _ |>.mpr (h.va_width p.2 _))]
      rfl
  refine ⟨_, ?_, ?_, rfl⟩
  · unfold ClassificationHead.forward
    rw [hparts, exceptMap_ok, flatten_singletons]
  · rw [List.length_map, List.length_zip, hlen, Nat.min_self]

theorem head_both_present_witness :
    (headDiag.corpus_emb_dim ≠ 0 ∧ headDiag.nontext_dim ≠ 0 ∧
      ([[(0:ℝ)]] : List (List ℝ)).length =
        ([[[(0:ℝ)]]] : List (List (List ℝ))).length ∧
      (∀ v ∈ [[(0:ℝ)]], v.length = headDiag.corpus_emb_dim)) ∧
      (∃ out, headDiag.forward (some [[0]]) (some [[[0]]]) = .ok out ∧
        out.length = ([[(0:ℝ)]] : List (List ℝ)).length ∧
        out = (([[(0:ℝ)]].zip [[[(0:ℝ)]]]).map fun p =>
          headDiag.mlp (headDiag.va p.2
            (List.ofFn fun j : Fin headDiag.nontext_dim =>
              ∑ i, headDiag.projW j i * p.1.getD i 0)))) :=
  ⟨⟨by decide, by decide, rfl, by simp [headDiag]⟩,
    head_both_present headDiag [[0]] [[[0]]] (by decide) (by decide) rfl
      (by simp [headDiag])⟩

/-! ### framework_model.py: CorpusEncoder (dual corpus encoder)

The institution tuple (ECB first, then FED) is a list of 3-D token tensors;
x[i] on a too-short tuple is an index error, calling an attribute that the
constructor never set is an attribute error, and both are modelled as
Except errors. corpus_emb_dim is Option-valued because the constructor
leaves the attribute unset for unrecognized methods. -/

structure FrameworkCE where
  method : Option String
  separate : Bool
  encoder : Option CorpusEncoder03
  encoder_ecb : Option CorpusEncoder03
  encoder_fed : Option CorpusEncoder03
  corpus_emb_dim : Option ℕ

/-- CorpusEncoder.__init__: branch on the method tag; the model_03 branch
builds one shared or two separate CorpusEncoder03 instances (passed here
prebuilt, standing for CorpusEncoder03(**kwargs_ce)) and sets
corpus_emb_dim accordingly; the stub methods set only corpus_emb_dim;
method None sets corpus_emb_dim = 0; any other tag sets nothing. -/
def mkCorpusEncoder (e1 e2 : CorpusEncoder03) (method : Option String)
    (separate : Bool) : FrameworkCE :=
  match method with
  | some "bow" =>
    ⟨method, separate, none, none, none,
      some (1 * (1 + if separate then 1 else 0))⟩
  | some "max_pooling" =>
    ⟨method, separate, none, none, none,
      some (1 * (1 + if separate then 1 else 0))⟩
  | some "hierbert" =>
    ⟨method, separate, none, none, none,
      some (1 * (1 + if separate then 1 else 0))⟩
  | some "model_03" =>
    if separate then
      ⟨method, separate, none, some e1, some e2,
        some (2 * e1.corpus_emb_dim)⟩
    else
      ⟨method, separate, some e1, none, none, some e1.corpus_emb_dim⟩
  | none => ⟨method, separate, none, none, none, some 0⟩
  | some _ => ⟨method, separate, none, none, none, none⟩

/-- CorpusEncoder.forward: the stub branches fall through; method None
returns None (the explicit absent-modality signal); separate mode runs the
ECB encoder on the first tuple entry and the FED encoder on the second and
concatenates the rows along the feature axis (torch.cat(..., dim=1), which
requires equal batch sizes); shared mode runs the single encoder on the
first entry. -/
def FrameworkCE.forward (ce : FrameworkCE)
    (x x_masks : List (List (List (List ℤ)))) :
    Except String (Option (List (List ℝ))) :=
  if ce.method.isNone then .ok none
  else
    if ce.separate then
      match x.get? 0, x_masks.get? 0, x.get? 1, x_masks.get? 1 with
      | some x0, some m0, some x1, some m1 =>
        match ce.encoder_ecb, ce.encoder_fed with
        | some eE, some eF =>
          (eE.forward x0 (some m0)).bind fun r0 =>
            (eF.forward x1 (some m1)).bind fun r1 =>
              if r0.length == r1.length then
                .ok (some (List.zipWith (· ++ ·) r0 r1))
              else .error "Sizes of tensors must match except in dimension 1"
        | _, _ => .error "TypeError: NoneType object is not callable"
      | _, _, _, _ => .error "IndexError: tuple index out of range"
    else
      match x.get? 0, x_masks.get? 0, ce.encoder with
      | some x0, some m0, some e => (e.forward x0 (some m0)).map some
      | _, _, _ => .error "TypeError: NoneType object is not callable"

/-- Document encoder that reads off the first token id of the document as
every feature, making the institution order observable downstream. -/
noncomputable def bertTok : DocumentEncoder :=
  ⟨fun toks _ _ _ => ((toks.getD 0 0 : ℤ) : ℝ)⟩

/-- Corpus encoder around bertTok whose projection reads feature 0. -/
noncomputable def encTok : CorpusEncoder03 :=
  ⟨bertTok, fun _ i => if i = 0 then 1 else 0, fun _ => 0⟩

theorem encTok_forward (c : ℤ) :
    encTok.forward [[[c]]] (some [[[1]]]) =
      .ok [List.ofFn fun _ : Fin 32 => (c : ℝ)] := by
  have hguard : ((([[[c]]] : List (List (List ℤ))).length == ([[[1]]] :
      List (List (List ℤ))).length) &&
      (([[[c]]] : List (List (List ℤ))).zip [[[1]]]).all
        fun p => p.1.length == p.2.length) = true := by
    simp [List.zip]
  simp only [CorpusEncoder03.forward, hguard, if_true]
  simp only [List.zip, List.zipWith, mapE_cons, mapE_nil]
  have hsample : encTok.encSample ([[c]], [[1]]) =
      .ok (List.ofFn fun _ : Fin 32 => (c : ℝ)) := by
    unfold CorpusEncoder03.encSample maxPoolDocs
    simp only [List.zip, List.zipWith, List.map]
    simp only [encTok, bertTok, DocumentEncoder.forward]
    simp only [exceptBind_ok]
    refine congrArg Except.ok (congrArg List.ofFn (funext fun o => ?_))
    simp [List.getD, Finset.sum_ite_eq', ite_mul, one_mul, zero_mul]
  rw [hsample]
  rfl

/-- C6: the dual corpus encoder built with method model_03 and
separate = True declares corpus_emb_dim twice the single-encoder dimension,
its forward output is the row-wise concatenation of the ECB embedding of
the first tuple entry followed by the FED embedding of the second, and
swapping the institution input order changes the result (shown on a
concrete instance). -/
theorem dual_encoder_separate_concat :
    (∀ e1 e2 : CorpusEncoder03,
      (mkCorpusEncoder e1 e2 (some "model_03") true).corpus_emb_dim =
        some (2 * e1.corpus_emb_dim)) ∧
      (∀ (e1 e2 : CorpusEncoder03) (x0 x1 m0 m1 : List (List (List ℤ)))
          (r0 r1 : List (List ℝ)),
        e1.forward x0 (some m0) = .ok r0 →
        e2.forward x1 (some m1) = .ok r1 → r0.length = r1.length →
        (mkCorpusEncoder e1 e2 (some "model_03") true).forward [x0, x1]
            [m0, m1] = .ok (some (List.zipWith (· ++ ·) r0 r1))) ∧
      (mkCorpusEncoder encTok encTok (some "model_03") true).forward
          [[[[0]]], [[[1]]]] [[[[1]]], [[[1]]]] ≠
        (mkCorpusEncoder encTok encTok (some "model_03") true).forward
          [[[[1]]], [[[0]]]] [[[[1]]], [[[1]]]] := by
  have hfwd : ∀ (e1 e2 : CorpusEncoder03)
      (x0 x1 m0 m1 : List (List (List ℤ))) (r0 r1 : List (List ℝ)),
      e1.forward x0 (some m0) = .ok r0 →
      e2.forward x1 (some m1) = .ok r1 → r0.length = r1.length →
      (mkCorpusEncoder e1 e2 (some "model_03") true).forward [x0, x1]
          [m0, m1] = .ok (some (List.zipWith (· ++ ·) r0 r1)) := by
    intro e1 e2 x0 x1 m0 m1 r0 r1 h0 h1 hlen
    have hmk : mkCorpusEncoder e1 e2 (some "model_03") true =
        ⟨some "model_03", true, none, some e1, some e2,
          some (2 * e1.corpus_emb_dim)⟩ := rfl
    rw [hmk]
    unfold FrameworkCE.forward
    dsimp only
    rw [if_pos rfl]
    simp only [List.get?_cons_zero, List.get?_cons_succ]
    rw [h0, exceptBind_ok, h1, exceptBind_ok,
      if_pos (Nat.beq_eq_true_eq _ _ |>.mpr hlen)]
    rw [if_neg (by simp)]
  refine ⟨fun e1 e2 => rfl, hfwd, ?_⟩
  have hA := hfwd encTok encTok [[[0]]] [[[1]]] [[[1]]] [[[1]]] _ _
    (encTok_forward 0) (encTok_forward 1) (by simp)
  have hB := hfwd encTok encTok [[[1]]] [[[0]]] [[[1]]] [[[1]]] _ _
    (encTok_forward 1) (encTok_forward 0) (by simp)
  rw [hA, hB]
  intro h
  have h2 := Option.some.inj (Except.ok.inj h)
  have h3 : ((List.ofFn fun _ : Fin 32 => ((0:ℤ) : ℝ)) ++
        (List.ofFn fun _ : Fin 32 => ((1:ℤ) : ℝ))).getD 0 0 =
      ((List.ofFn fun _ : Fin 32 => ((1:ℤ) : ℝ)) ++
        (List.ofFn fun _ : Fin 32 => ((0:ℤ) : ℝ))).getD 0 0 := by
    have h4 := congrArg (fun l => (l.getD 0 []).getD 0 0) h2
    simp [List.zipWith] at h4
  rw [List.getD_append _ _ 0 0 (by simp), List.getD_append _ _ 0 0 (by simp)]
    at h3
  simp [List.getD_eq_getElem?_getD, List.getElem?_ofFn] at h3

theorem dual_encoder_separate_concat_witness :
    (encTok.forward [[[0]]] (some [[[1]]]) =
        .ok [List.ofFn fun _ : Fin 32 => ((0 : ℤ) : ℝ)]) ∧
      (encTok.forward [[[1]]] (some [[[1]]]) =
        .ok [List.ofFn fun _ : Fin 32 => ((1 : ℤ) : ℝ)]) ∧
      ([List.ofFn fun _ : Fin 32 => ((0 : ℤ) : ℝ)] : List (List ℝ)).length =
        ([List.ofFn fun _ : Fin 32 => ((1 : ℤ) : ℝ)] :
          List (List ℝ)).length ∧
      (mkCorpusEncoder encTok encTok (some "model_03") true).forward
          [[[[0]]], [[[1]]]] [[[[1]]], [[[1]]]] =
        .ok (some (List.zipWith (· ++ ·)
          [List.ofFn fun _ : Fin 32 => ((0 : ℤ) : ℝ)]
          [List.ofFn fun _ : Fin 32 => ((1 : ℤ) : ℝ)])) :=
  ⟨encTok_forward 0, encTok_forward 1, rfl,
    dual_encoder_separate_concat.2.1 encTok encTok [[[0]]] [[[1]]] [[[1]]]
      [[[1]]] _ _ (encTok_forward 0) (encTok_forward 1) rfl⟩

/-! ### Helper lemmas for the per-sample factorization of batched forwards -/

theorem exceptBind_eq_ok {α β : Type} {e : Except String α}
    {f : α → Except String β} {b : β} (h : e.bind f = .ok b) :
    ∃ a, e = .ok a ∧ f a = .ok b := by
  cases e with
  | error err => cases h
  | ok a => exact ⟨a, rfl, h⟩

theorem exceptMap_eq_ok {α β : Type} {e : Except String α} {f : α → β}
    {b : β} (h : Except.map f e = .ok b) :
    ∃ a, e = .ok a ∧ b = f a := by
  cases e with
  | error err => cases h
  | ok a =>
    refine ⟨a, rfl, ?_⟩
    rw [exceptMap_ok] at h
    exact (Except.ok.inj h).symm

theorem mapE_singleton_ok {α β : Type} {f : α → Except String β} {a : α}
    {b : β} (h : f a = .ok b) : mapE [a] f = .ok [b] := by
  rw [mapE_cons, h, mapE_nil]
  rfl

/-- NontextualNetwork.forward always yields 10 steps when it succeeds. -/
theorem nontext_ok_length {nt : NontextualNetwork} {v : List ℝ}
    {s : List (List ℝ)} (h : nt.forward v = .ok s) : s.length = 10 := by
  unfold NontextualNetwork.forward at h
  by_cases hc : (((v.drop 10).length == 9) = true)
  · rw [if_pos hc] at h
    cases h
    exact List.length_ofFn _
  · rw [if_neg hc] at h
    cases h

theorem flatten_length_uniform {α : Type} (parts : List (List α)) (len : ℕ)
    (hp : ∀ p ∈ parts, p.length = len) :
    parts.flatten.length = parts.length * len := by
  induction parts with
  | nil => simp
  | cons p rest ih =>
    rw [List.flatten_cons, List.length_append,
      hp p (List.mem_cons_self p rest),
      ih fun q hq => hp q (List.mem_cons_of_mem p hq), List.length_cons]
    ring

/-- The output slice belonging to sample i, when the output is the
flattening of one equal-length block per sample. -/
def blockAt (n i : ℕ) (out : List ℝ) : List ℝ :=
  (out.drop (i * (out.length / n))).take (out.length / n)

theorem flatten_blockAt (parts : List (List ℝ)) (len i : ℕ)
    (hp : ∀ p ∈ parts, p.length = len) (hi : i < parts.length) :
    blockAt parts.length i parts.flatten = parts.getD i [] := by
  have hn : 0 < parts.length := Nat.lt_of_le_of_lt (Nat.zero_le i) hi
  have hlen : parts.flatten.length = parts.length * len :=
    flatten_length_uniform parts len hp
  have hdiv : parts.flatten.length / parts.length = len := by
    rw [hlen, Nat.mul_div_cancel_left len hn]
  unfold blockAt
  rw [hdiv]
  clear hlen hdiv hn
  induction parts generalizing i with
  | nil => simp at hi
  | cons p rest ih =>
    cases i with
    | zero =>
      rw [List.flatten_cons, Nat.zero_mul, List.drop_zero,
        List.getD_cons_zero, ← hp p (List.mem_cons_self p rest),
        List.take_left]
    | succ k =>
      have hk : k < rest.length := by simpa using hi
      rw [List.flatten_cons, Nat.succ_mul, Nat.add_comm,
        ← hp p (List.mem_cons_self p rest), List.drop_append,
        hp p (List.mem_cons_self p rest)]
      simpa using ih k (fun q hq => hp q (List.mem_cons_of_mem p hq)) hk

/-- The batch of size one holding only sample i of a batched institution
tuple of 3-D token (or mask) tensors. -/
def textSample (i : ℕ) (xt : List (List (List (List ℤ)))) :
    List (List (List (List ℤ))) :=
  xt.map fun inst => [inst.getD i []]

/-- The batch of size one holding only sample i of a batched flat numeric
input. -/
def nontextSample (i : ℕ) (xnt : List (List ℝ)) : List (List ℝ) :=
  [xnt.getD i []]

theorem enc03_forward_single (e : CorpusEncoder03)
    (x masks : List (List (List ℤ))) (n i : ℕ) (hi : i < n)
    (hxn : x.length = n) (hmn : masks.length = n) (rows : List (List ℝ))
    (h : e.forward x (some masks) = .ok rows) :
    e.forward [x.getD i []] (some [masks.getD i []]) =
      .ok [rows.getD i []] ∧ rows.length = n := by
  simp only [CorpusEncoder03.forward] at h
  by_cases hg : ((x.length == masks.length &&
      (x.zip masks).all fun p => p.1.length == p.2.length) = true)
  · rw [if_pos hg] at h
    have hrowlen : rows.length = n := by
      rw [mapE_ok_length _ h, List.length_zip, hxn, hmn, Nat.min_self]
    have hin : i < (x.zip masks).length := by
      rw [List.length_zip, hxn, hmn, Nat.min_self]
      exact hi
    have hix : i < x.length := by omega
    have him : i < masks.length := by omega
    have hzil : (x.zip masks).getD i ([], []) =
        (x.getD i [], masks.getD i []) := by
      rw [List.getD_eq_getElem _ _ hin, List.getD_eq_getElem x [] hix,
        List.getD_eq_getElem masks [] him]
      exact List.getElem_zip
    have hsingle : e.encSample (x.getD i [], masks.getD i []) =
        .ok (rows.getD i []) := by
      rw [← hzil]
      exact mapE_ok_getD _ ([], []) [] h i hin
    refine ⟨?_, hrowlen⟩
    simp only [CorpusEncoder03.forward]
    have hdoc : ((x.getD i []).length == (masks.getD i []).length) = true := by
      have hmem : (x.zip masks)[i] ∈ x.zip masks := List.getElem_mem hin
      have hgsplit := hg
      rw [Bool.and_eq_true] at hgsplit
      have := List.all_eq_true.mp hgsplit.2 _ hmem
      rw [List.getElem_zip] at this
      rw [List.getD_eq_getElem x [] hix, List.getD_eq_getElem masks [] him]
      exact this
    have hg1 : ((([x.getD i []] : List (List (List ℤ))).length ==
        ([masks.getD i []] : List (List (List ℤ))).length) &&
        (([x.getD i []] : List (List (List ℤ))).zip
          [masks.getD i []]).all fun p => p.1.length == p.2.length) = true := by
      rw [Bool.and_eq_true]
      refine ⟨rfl, ?_⟩
      rw [List.all_eq_true]
      intro p hp
      rw [show ([x.getD i []] : List (List (List ℤ))).zip [masks.getD i []] =
        [(x.getD i [], masks.getD i [])] from rfl] at hp
      rcases List.mem_cons.mp hp with hp | hp
      · rw [hp]
        exact hdoc
      · simp at hp
    rw [if_pos hg1]
    rw [show ([x.getD i []] : List (List (List ℤ))).zip [masks.getD i []] =
      [(x.getD i [], masks.getD i [])] from rfl]
    exact mapE_singleton_ok hsingle
  · rw [if_neg hg] at h
    cases h

theorem frameworkCE_forward_single (ce : FrameworkCE)
    (xt xm : List (List (List (List ℤ)))) (n i : ℕ) (hi : i < n)
    (hrx : ∀ inst ∈ xt, inst.length = n)
    (hrm : ∀ inst ∈ xm, inst.length = n)
    (xc : Option (List (List ℝ)))
    (h : ce.forward xt xm = .ok xc) :
    ce.forward (textSample i xt) (textSample i xm) =
      .ok (xc.map fun rows => [rows.getD i []]) ∧
      ∀ rows, xc = some rows → rows.length = n := by
  unfold FrameworkCE.forward at h ⊢
  cases hmeth : ce.method with
  | none =>
    rw [hmeth] at h
    replace h : (Except.ok none :
        Except String (Option (List (List ℝ)))) = .ok xc := h
    have hxc := Except.ok.inj h
    subst hxc
    exact ⟨rfl, fun rows hr => nomatch hr⟩
  | some s =>
    rw [hmeth] at h
    cases hsep : ce.separate with
    | false =>
      rw [hsep] at h
      cases hx0 : xt.get? 0 with
      | none => rw [hx0] at h; exact nomatch h
      | some x0 =>
        rw [hx0] at h
        cases hm0 : xm.get? 0 with
        | none => rw [hm0] at h; exact nomatch h
        | some m0 =>
          rw [hm0] at h
          cases henc : ce.encoder with
          | none => rw [henc] at h; exact nomatch h
          | some e =>
            rw [henc] at h
            obtain ⟨rows, hrows, hxc⟩ := exceptMap_eq_ok h
            subst hxc
            obtain ⟨hsingle, hrlen⟩ := enc03_forward_single e x0 m0 n i hi
              (hrx x0 (List.get?_mem hx0)) (hrm m0 (List.get?_mem hm0))
              rows hrows
            have hgx : (textSample i xt).get? 0 = some [x0.getD i []] := by
              unfold textSample
              rw [List.get?_map, hx0]
              rfl
            have hgm : (textSample i xm).get? 0 = some [m0.getD i []] := by
              unfold textSample
              rw [List.get?_map, hm0]
              rfl
            rw [hgx, hgm]
            refine ⟨?_, fun rows' hr => (Option.some.inj hr) ▸ hrlen⟩
            show Except.map some
              (e.forward [x0.getD i []] (some [m0.getD i []])) = _
            rw [hsingle]
            rfl
    | true =>
      rw [hsep] at h
      cases hx0 : xt.get? 0 with
      | none => rw [hx0] at h; exact nomatch h
      | some x0 =>
        rw [hx0] at h
        cases hm0 : xm.get? 0 with
        | none => rw [hm0] at h; exact nomatch h
        | some m0 =>
          rw [hm0] at h
          cases hx1 : xt.get? 1 with
          | none => rw [hx1] at h; exact nomatch h
          | some x1 =>
            rw [hx1] at h
            cases hm1 : xm.get? 1 with
            | none => rw [hm1] at h; exact nomatch h
            | some m1 =>
              rw [hm1] at h
              cases hee : ce.encoder_ecb with
              | none => rw [hee] at h; exact nomatch h
              | some eE =>
                rw [hee] at h
                cases hef : ce.encoder_fed with
                | none => rw [hef] at h; exact nomatch h
                | some eF =>
                  rw [hef] at h
                  replace h : (eE.forward x0 (some m0)).bind (fun r0 =>
                      (eF.forward x1 (some m1)).bind fun r1 =>
                        if (r0.length == r1.length) = true then
                          .ok (some (List.zipWith (· ++ ·) r0 r1))
                        else .error
                          "Sizes of tensors must match except in dimension 1")
                      = .ok xc := h
                  obtain ⟨r0, hr0, h⟩ := exceptBind_eq_ok h
                  obtain ⟨r1, hr1, h⟩ := exceptBind_eq_ok h
                  by_cases hbl : ((r0.length == r1.length) = true)
                  case neg => rw [if_neg hbl] at h; cases h
                  rw [if_pos hbl] at h
                  have hxc := Except.ok.inj h
                  subst hxc
                  obtain ⟨hs0, hl0⟩ := enc03_forward_single eE x0 m0 n i hi
                    (hrx x0 (List.get?_mem hx0)) (hrm m0 (List.get?_mem hm0))
                    r0 hr0
                  obtain ⟨hs1, hl1⟩ := enc03_forward_single eF x1 m1 n i hi
                    (hrx x1 (List.get?_mem hx1)) (hrm m1 (List.get?_mem hm1))
                    r1 hr1
                  have hgx0 : (textSample i xt).get? 0 =
                      some [x0.getD i []] := by
                    unfold textSample
                    rw [List.get?_map, hx0]
                    rfl
                  have hgm0 : (textSample i xm).get? 0 =
                      some [m0.getD i []] := by
                    unfold textSample
                    rw [List.get?_map, hm0]
                    rfl
                  have hgx1 : (textSample i xt).get? 1 =
                      some [x1.getD i []] := by
                    unfold textSample
                    rw [List.get?_map, hx1]
                    rfl
                  have hgm1 : (textSample i xm).get? 1 =
                      some [m1.getD i []] := by
                    unfold textSample
                    rw [List.get?_map, hm1]
                    rfl
                  rw [hgx0, hgm0, hgx1, hgm1]
                  have hizip : i < (List.zipWith (· ++ ·) r0 r1).length := by
                    rw [List.length_zipWith, hl0, hl1, Nat.min_self]
                    exact hi
                  have hzw : (List.zipWith (· ++ ·) r0 r1).getD i [] =
                      r0.getD i [] ++ r1.getD i [] := by
                    rw [List.getD_eq_getElem _ _ hizip,
                      List.getD_eq_getElem r0 [] (by omega : i < r0.length),
                      List.getD_eq_getElem r1 [] (by omega : i < r1.length)]
                    exact List.getElem_zipWith
                  constructor
                  · show (eE.forward [x0.getD i []]
                        (some [m0.getD i []])).bind (fun r0' =>
                        (eF.forward [x1.getD i []]
                          (some [m1.getD i []])).bind fun r1' =>
                          if (r0'.length == r1'.length) = true then
                            .ok (some (List.zipWith (· ++ ·) r0' r1'))
                          else .error
                            "Sizes of tensors must match except in dimension 1")
                        = _
                    rw [hs0, exceptBind_ok, hs1, exceptBind_ok,
                      if_pos (show ((([r0.getD i []] : List (List ℝ)).length ==
                        ([r1.getD i []] : List (List ℝ)).length) = true)
                        from rfl)]
                    rw [show List.zipWith (· ++ ·) [r0.getD i []]
                      [r1.getD i []] = [r0.getD i [] ++ r1.getD i []] from rfl]
                    rw [Option.map_some', hzw]
                  · intro rows hr
                    rw [← Option.some.inj hr, List.length_zipWith, hl0, hl1,
                      Nat.min_self]

theorem mapE_seq_single {h : ClassificationHead} {xn : List (List (List ℝ))}
    {parts : List (List ℝ)} {n i : ℕ} (hi : i < n) (hxn : xn.length = n)
    (hstep : ∀ s ∈ xn, s.length = 10)
    (hparts : mapE xn (fun s => mapE s h.mlpVec) = .ok parts) :
    mapE [xn.getD i []] (fun s => mapE s h.mlpVec) =
      .ok [parts.getD i []] ∧ parts.length = n ∧
      ∀ p ∈ parts, p.length = 10 := by
  refine ⟨mapE_singleton_ok (mapE_ok_getD _ [] [] hparts i (by omega)), ?_, ?_⟩
  · rw [mapE_ok_length _ hparts, hxn]
  · intro p hp
    obtain ⟨s, hs, hfs⟩ := mapE_ok_mem _ hparts p hp
    rw [mapE_ok_length _ hfs]
    exact hstep s hs

theorem mapE_vec_single {h : ClassificationHead} {vs : List (List ℝ)}
    {parts : List (List ℝ)} {n i : ℕ} (hi : i < n) (hvs : vs.length = n)
    (hparts : mapE vs (fun v => (h.mlpVec v).map fun r => [r]) = .ok parts) :
    mapE [vs.getD i []] (fun v => (h.mlpVec v).map fun r => [r]) =
      .ok [parts.getD i []] ∧ parts.length = n ∧
      ∀ p ∈ parts, p.length = 1 := by
  refine ⟨mapE_singleton_ok (mapE_ok_getD _ [] [] hparts i (by omega)), ?_, ?_⟩
  · rw [mapE_ok_length _ hparts, hvs]
  · intro p hp
    obtain ⟨v, _, hfv⟩ := mapE_ok_mem _ hparts p hp
    obtain ⟨r, _, hpr⟩ := exceptMap_eq_ok hfv
    rw [hpr]
    rfl

theorem mapE_fuse_single {h : ClassificationHead} {vs : List (List ℝ)}
    {xn : List (List (List ℝ))} {parts : List (List ℝ)} {n i : ℕ}
    (hi : i < n) (hvs : vs.length = n) (hxn : xn.length = n)
    (hparts : mapE (vs.zip xn) (fun p => (h.projVec p.1).bind fun q =>
      (h.mlpVec (h.va p.2 q)).map fun r => [r]) = .ok parts) :
    mapE ([vs.getD i []].zip [xn.getD i []]) (fun p =>
        (h.projVec p.1).bind fun q =>
          (h.mlpVec (h.va p.2 q)).map fun r => [r]) =
      .ok [parts.getD i []] ∧ parts.length = n ∧
      ∀ p ∈ parts, p.length = 1 := by
  have hzlen : (vs.zip xn).length = n := by
    rw [List.length_zip, hvs, hxn, Nat.min_self]
  have hin : i < (vs.zip xn).length := by omega
  have hzil : (vs.zip xn).getD i ([], []) =
      (vs.getD i [], xn.getD i []) := by
    rw [List.getD_eq_getElem _ _ hin,
      List.getD_eq_getElem vs [] (by omega : i < vs.length),
      List.getD_eq_getElem xn [] (by omega : i < xn.length)]
    exact List.getElem_zip
  refine ⟨?_, ?_, ?_⟩
  · rw [show ([vs.getD i []].zip [xn.getD i []] :
      List (List ℝ × List (List ℝ))) =
      [(vs.getD i [], xn.getD i [])] from rfl]
    refine mapE_singleton_ok ?_
    rw [← hzil]
    exact mapE_ok_getD _ ([], []) [] hparts i hin
  · rw [mapE_ok_length _ hparts, hzlen]
  · intro p hp
    obtain ⟨v, _, hfv⟩ := mapE_ok_mem _ hparts p hp
    obtain ⟨q, _, hfq⟩ := exceptBind_eq_ok hfv
    obtain ⟨r, _, hpr⟩ := exceptMap_eq_ok hfq
    rw [hpr]
    rfl

theorem head_forward_single (h : ClassificationHead)
    (xc : Option (List (List ℝ))) (xn : List (List (List ℝ)))
    (n i : ℕ) (hi : i < n) (hxn : xn.length = n)
    (hxc : ∀ rows, xc = some rows → rows.length = n)
    (hstep : ∀ s ∈ xn, s.length = 10)
    (out : List ℝ)
    (hfwd : h.forward xc (some xn) = .ok out) :
    h.forward (xc.map fun rows => [rows.getD i []]) (some [xn.getD i []]) =
      .ok (blockAt n i out) := by
  unfold ClassificationHead.forward at hfwd ⊢
  obtain ⟨parts, hparts, hout⟩ := exceptMap_eq_ok hfwd
  subst hout
  have hblock : ∀ len, (∀ p ∈ parts, p.length = len) → parts.length = n →
      blockAt n i parts.flatten = parts.getD i [] := by
    intro len hp hplen
    rw [← hplen]
    exact flatten_blockAt parts len i hp (by omega)
  unfold ClassificationHead.forwardParts at hparts ⊢
  cases xc with
  | none =>
    rw [Option.map_none']
    by_cases hc2 : ((h.nontext_dim == 0) = true)
    · rw [if_pos (by simp [hc2])] at hparts
      cases hparts
    · rw [if_neg (by simp [hc2])] at hparts
      rw [if_pos (by simp)] at hparts
      replace hparts : mapE xn (fun s => mapE s h.mlpVec) = .ok parts :=
        hparts
      obtain ⟨hsing, hplen, hp⟩ := mapE_seq_single hi hxn hstep hparts
      rw [if_neg (by simp [hc2]), if_pos (by simp)]
      rw [show (match (some [xn.getD i []] :
          Option (List (List (List ℝ)))) with
        | some seqs => mapE seqs fun s => mapE s h.mlpVec
        | none => Except.error "TypeError: mlp applied to None") =
        mapE [xn.getD i []] (fun s => mapE s h.mlpVec) from rfl]
      rw [hsing, exceptMap_ok, hblock 10 hp hplen]
      simp
  | some vs =>
    have hvs : vs.length = n := hxc vs rfl
    rw [Option.map_some']
    by_cases hce : ((h.corpus_emb_dim == 0) = true)
    · by_cases hc2 : ((h.nontext_dim == 0) = true)
      · rw [if_pos (by simp [hce, hc2])] at hparts
        cases hparts
      · rw [if_neg (by simp [hc2])] at hparts
        rw [if_pos (by simp [hce])] at hparts
        replace hparts : mapE xn (fun s => mapE s h.mlpVec) = .ok parts :=
          hparts
        obtain ⟨hsing, hplen, hp⟩ := mapE_seq_single hi hxn hstep hparts
        rw [if_neg (by simp [hc2]), if_pos (by simp [hce])]
        rw [show (match (some [xn.getD i []] :
            Option (List (List (List ℝ)))) with
          | some seqs => mapE seqs fun s => mapE s h.mlpVec
          | none => Except.error "TypeError: mlp applied to None") =
          mapE [xn.getD i []] (fun s => mapE s h.mlpVec) from rfl]
        rw [hsing, exceptMap_ok, hblock 10 hp hplen]
        simp
    · by_cases hc2 : ((h.nontext_dim == 0) = true)
      · rw [if_neg (by simp [hce])] at hparts
        rw [if_neg (by simp [hce])] at hparts
        rw [if_pos (by simp [hc2])] at hparts
        replace hparts :
            mapE vs (fun v => (h.mlpVec v).map fun r => [r]) = .ok parts :=
          hparts
        obtain ⟨hsing, hplen, hp⟩ := mapE_vec_single hi hvs hparts
        rw [if_neg (by simp [hce]), if_neg (by simp [hce]),
          if_pos (by simp [hc2])]
        rw [show (match (some [vs.getD i []] :
            Option (List (List ℝ))) with
          | some vs' => mapE vs' fun v => (h.mlpVec v).map fun r => [r]
          | none => Except.error "TypeError: mlp applied to None") =
          mapE [vs.getD i []] (fun v => (h.mlpVec v).map fun r => [r])
          from rfl]
        rw [hsing, exceptMap_ok, hblock 1 hp hplen]
        simp
      · rw [if_neg (by simp [hce])] at hparts
        rw [if_neg (by simp [hce])] at hparts
        rw [if_neg (by simp [hc2])] at hparts
        replace hparts : (if (vs.length == xn.length) = true then
            mapE (vs.zip xn) (fun p => (h.projVec p.1).bind fun q =>
              (h.mlpVec (h.va p.2 q)).map fun r => [r])
          else .error "batch size mismatch") = .ok parts := hparts
        rw [if_pos (show (vs.length == xn.length) = true by
          rw [hvs, hxn]; simp)] at hparts
        obtain ⟨hsing, hplen, hp⟩ := mapE_fuse_single hi hvs hxn hparts
        rw [if_neg (by simp [hce]), if_neg (by simp [hce]),
          if_neg (by simp [hc2])]
        rw [show (match (some [vs.getD i []] : Option (List (List ℝ))),
            (some [xn.getD i []] : Option (List (List (List ℝ)))) with
          | some vs', some seqs =>
            if (vs'.length == seqs.length) = true then
              mapE (vs'.zip seqs) fun p => (h.projVec p.1).bind fun q =>
                (h.mlpVec (h.va p.2 q)).map fun r => [r]
            else .error "batch size mismatch"
          | _, _ => (.error "TypeError" :
              Except String (List (List ℝ)))) =
          mapE ([vs.getD i []].zip [xn.getD i []]) (fun p =>
            (h.projVec p.1).bind fun q =>
              (h.mlpVec (h.va p.2 q)).map fun r => [r]) from rfl]
        rw [hsing, exceptMap_ok, hblock 1 hp hplen]
        simp

/-! ### framework_model.py: MyModel (top-level orchestrator) -/

structure MyModel where
  method : Option String
  nontext_network : NontextualNetwork
  corpus_encoder : FrameworkCE
  classifier : ClassificationHead

/-- MyModel.forward: run the nontextual network on the batch, compute the
corpus embedding unless method is None, then classify. The stub method
branches (bow, max_pooling, hierbert) only pass. -/
def MyModel.forward (m : MyModel)
    (x_text x_masks : List (List (List (List ℤ))))
    (x_nontext : List (List ℝ)) : Except String (List ℝ) :=
  (mapE x_nontext m.nontext_network.forward).bind fun xn =>
    (if m.method.isNone then .ok none
     else m.corpus_encoder.forward x_text x_masks).bind fun xc =>
      m.classifier.forward xc (some xn)

theorem myModel_forward_single (m : MyModel)
    (xt xm : List (List (List (List ℤ)))) (xnt : List (List ℝ))
    (out : List ℝ) (i : ℕ)
    (hrx : ∀ inst ∈ xt, inst.length = xnt.length)
    (hrm : ∀ inst ∈ xm, inst.length = xnt.length)
    (hi : i < xnt.length)
    (h : m.forward xt xm xnt = .ok out) :
    m.forward (textSample i xt) (textSample i xm) (nontextSample i xnt) =
      .ok (blockAt xnt.length i out) := by
  unfold MyModel.forward at h ⊢
  obtain ⟨xn, hxn, h⟩ := exceptBind_eq_ok h
  obtain ⟨xc, hxcv, h⟩ := exceptBind_eq_ok h
  have hxn1 : mapE (nontextSample i xnt) m.nontext_network.forward =
      .ok [xn.getD i []] := by
    unfold nontextSample
    exact mapE_singleton_ok (mapE_ok_getD _ [] [] hxn i hi)
  have hxnlen : xn.length = xnt.length := mapE_ok_length _ hxn
  have hsteps : ∀ s ∈ xn, s.length = 10 := by
    intro s hs
    obtain ⟨v, _, hfv⟩ := mapE_ok_mem _ hxn s hs
    exact nontext_ok_length hfv
  rw [hxn1]
  rw [exceptBind_ok]
  cases hmeth : m.method with
  | none =>
    rw [hmeth] at hxcv
    replace hxcv : (Except.ok none :
        Except String (Option (List (List ℝ)))) = .ok xc := hxcv
    have hxcn := Except.ok.inj hxcv
    subst hxcn
    rw [if_pos (by simp)]
    rw [exceptBind_ok]
    have hhead := head_forward_single m.classifier none xn xnt.length i hi
      hxnlen (fun rows hr => nomatch hr) hsteps out h
    exact hhead
  | some s =>
    rw [hmeth] at hxcv
    replace hxcv : m.corpus_encoder.forward xt xm = .ok xc := hxcv
    obtain ⟨hsing, hrows⟩ := frameworkCE_forward_single m.corpus_encoder
      xt xm xnt.length i hi hrx hrm xc hxcv
    rw [if_neg (by simp)]
    rw [hsing]
    rw [exceptBind_ok]
    exact head_forward_single m.classifier xc xn xnt.length i hi
      hxnlen hrows hsteps out h

/-- C3: batch independence of the top-level model. For two successful
forward passes over (rectangular) batches that agree on the features of one
sample (its per-institution text tokens, masks and flat nontextual vector),
the output block belonging to that sample is identical, regardless of which
and how many other samples are present in either batch and of their order:
both blocks equal the forward output of the batch containing only that
sample. -/
theorem myModel_batch_independence (m : MyModel)
    (xt xm yt ym : List (List (List (List ℤ))))
    (xnt ynt : List (List ℝ)) (out outy : List ℝ) (i j : ℕ)
    (hrx : ∀ inst ∈ xt, inst.length = xnt.length)
    (hrm : ∀ inst ∈ xm, inst.length = xnt.length)
    (hry : ∀ inst ∈ yt, inst.length = ynt.length)
    (hrym : ∀ inst ∈ ym, inst.length = ynt.length)
    (hi : i < xnt.length) (hj : j < ynt.length)
    (h1 : m.forward xt xm xnt = .ok out)
    (h2 : m.forward yt ym ynt = .ok outy)
    (htext : textSample i xt = textSample j yt)
    (hmask : textSample i xm = textSample j ym)
    (hfeat : xnt.getD i [] = ynt.getD j []) :
    blockAt xnt.length i out = blockAt ynt.length j outy := by
  have hA := myModel_forward_single m xt xm xnt out i hrx hrm hi h1
  have hB := myModel_forward_single m yt ym ynt outy j hry hrym hj h2
  rw [htext, hmask, show nontextSample i xnt = nontextSample j ynt from by
    unfold nontextSample; rw [hfeat]] at hA
  rw [hA] at hB
  exact Except.ok.inj hB

/-- Concrete nontextual network with one output feature per step. -/
noncomputable def ntOne : NontextualNetwork :=
  ⟨19, 2, 1, fun _ _ => 0, fun _ => 0, fun _ _ _ => 0⟩

/-- Concrete head taking only the nontextual modality (corpus width 0). -/
noncomputable def headOne : ClassificationHead :=
  ⟨0, 1, fun _ => 0, fun _ _ => [0], fun _ _ => rfl, fun _ _ => 0⟩

/-- Concrete model with method None: only the nontextual path is active. -/
noncomputable def modelTriv : MyModel :=
  ⟨none, ntOne, mkCorpusEncoder enc03Triv enc03Triv none true, headOne⟩

theorem ntOne_forward :
    ntOne.forward (List.replicate 19 0) = .ok (List.replicate 10 [0]) := by
  have h9 : ((((List.replicate 19 (0:ℝ)).drop 10)).length == 9) = true := by
    simp
  simp only [NontextualNetwork.forward, h9, if_true]
  simp [ntOne, List.ofFn_const]

theorem modelTriv_forward :
    modelTriv.forward [] [] [List.replicate 19 0] =
      .ok (List.replicate 10 0) := by
  unfold MyModel.forward
  simp only [modelTriv]
  rw [mapE_singleton_ok ntOne_forward, exceptBind_ok]
  rw [if_pos (by simp)]
  rw [exceptBind_ok]
  unfold ClassificationHead.forward ClassificationHead.forwardParts
    ClassificationHead.mlpVec
  simp [headOne, List.replicate_succ]

theorem myModel_batch_independence_witness :
    (0 < ([List.replicate 19 (0:ℝ)] : List (List ℝ)).length) ∧
      modelTriv.forward [] [] [List.replicate 19 0] =
        .ok (List.replicate 10 0) ∧
      blockAt ([List.replicate 19 (0:ℝ)] : List (List ℝ)).length 0
          (List.replicate 10 0) =
        blockAt ([List.replicate 19 (0:ℝ)] : List (List ℝ)).length 0
          (List.replicate 10 0) :=
  ⟨by simp, modelTriv_forward,
    myModel_batch_independence modelTriv [] [] [] []
      [List.replicate 19 0] [List.replicate 19 0]
      (List.replicate 10 0) (List.replicate 10 0) 0 0
      (by simp) (by simp) (by simp) (by simp) (by simp) (by simp)
      modelTriv_forward modelTriv_forward rfl rfl rfl⟩

end NlpModel
